import Mathlib

/-!
Verification development for the EOF rotation post-processing core
(`src/eof_rotation.py`).

The embedding models numpy floating-point vectors as lists of real
numbers.  Vector primitives (`dot`, `norm`, elementwise arithmetic)
mirror `np.dot`, `np.linalg.norm` and numpy broadcasting on 1-D arrays.
The per-day EOF container `EOFData` mirrors
`mjoindices.empirical_orthogonal_functions.EOFData`, and a series for
all days of the year is a plain `List EOFData` ordered by day of year
(day of year `d` lives at index `d - 1`).

External collaborators (the mjoindices package) are modelled from the
spec where the repository only calls them: `doy_list`,
`eofdata_for_doy` and the sign-alignment step.  Everything else is a
direct translation of the source functions, keeping their names.
-/

namespace EofRot

/-- Vectors are 1-D numpy float arrays, modelled as lists of reals. -/
abbrev Vec := List ℝ

/-- Translation of `np.dot(v1, v2)` for 1-D arrays: the sum of
elementwise products. -/
def dot (v1 v2 : Vec) : ℝ := (List.zipWith (· * ·) v1 v2).sum

/-- Translation of `np.linalg.norm(v)`: the Euclidean norm. -/
noncomputable def norm (v : Vec) : ℝ := Real.sqrt (dot v v)

/-- Scalar times vector, `c * v` under numpy broadcasting. -/
def smul (c : ℝ) (v : Vec) : Vec := v.map (fun x => c * x)

/-- Elementwise vector addition `v1 + v2`. -/
def vadd (v1 v2 : Vec) : Vec := List.zipWith (· + ·) v1 v2

/-- Elementwise division of a vector by a scalar, `v / c`. -/
noncomputable def vdiv (v : Vec) (c : ℝ) : Vec := v.map (fun x => x / c)

/-- Translation of `np.clip(x, lo, hi)` for scalars:
`min(max(x, lo), hi)`. -/
def npClip (x lo hi : ℝ) : ℝ := min (max x lo) hi

/-- Translation of `angle_btwn_vectors` (src/eof_rotation.py, lines
63-71): `np.arccos(np.clip(np.dot(v1, v2) / (norm(v1)*norm(v2)), -1., 1.))`. -/
noncomputable def angle_btwn_vectors (v1 v2 : Vec) : ℝ :=
  Real.arccos (npClip (dot v1 v2 / (norm v1 * norm v2)) (-1) 1)

/-- Per-day EOF container, mirroring the fields of
`mjoindices.empirical_orthogonal_functions.EOFData` that the core
reads or copies: the two basis vectors plus the opaque provenance
payload (grid axes, explained variances, eigenvalues, observation
count). -/
structure EOFData where
  lat : List ℝ
  long : List ℝ
  eof1vector : Vec
  eof2vector : Vec
  explained_variances : List ℝ
  eigenvalues : List ℝ
  no_observations : ℕ
deriving Inhabited

/-- Modelled from the spec: `tools.doy_list()` of the external
mjoindices package enumerates the day-of-year cycle `1 .. D`, where
`D ∈ {365, 366}` is supplied by the external calendar policy (spec
section 3/6).  The series holds exactly `D` frames, so the embedding
passes `D` explicitly. -/
def doy_list (D : ℕ) : List ℕ := List.range' 1 D

/-- Modelled from the spec: `EOFDataForAllDOYs.eofdata_for_doy(doy)` of
the external mjoindices package returns the frame stored for a day of
year, i.e. the element at index `doy - 1` of the ordered series (spec
section 3: indexed by day-of-year in `[1, D]`).  Total model; the
fallible variant used for the error-handling claims is
`eofdata_for_doy_run` below. -/
def eofdata_for_doy (s : List EOFData) (d : ℕ) : EOFData :=
  s.getD (d - 1) default

/-- One projection of a running pair `u = (u1, u2)` onto the span-sum of
basis vectors `b1, b2`.  This is
`rots = np.matmul(np.matmul(B, B.T), A).T` from the source with
`B = [b1 b2]` (columns) and `A = [u1 u2]` (columns):
`(B Bᵀ) u = b1 (b1 · u) + b2 (b2 · u)` applied to each column. -/
def projPair (b1 b2 : Vec) (u : Vec × Vec) : Vec × Vec :=
  (vadd (smul (dot b1 u.1) b1) (smul (dot b2 u.1) b2),
   vadd (smul (dot b1 u.2) b1) (smul (dot b2 u.2) b2))

/-- The frame supplying the projection basis at loop index `d` of
`calculate_angle_from_discontinuity`: day `d+1`, wrapping to day 1 when
`d + 1 > ndoys` (`ndoys = len(list_of_days)` with the day list built
for the series length). -/
def nextDoy (s : List EOFData) (d : ℕ) : EOFData :=
  if d + 1 > (doy_list s.length).length then eofdata_for_doy s 1
  else eofdata_for_doy s (d + 1)

/-- Loop body of `calculate_angle_from_discontinuity`: project the
running pair onto the next day's basis. -/
def estStep (s : List EOFData) (rots : Vec × Vec) (d : ℕ) : Vec × Vec :=
  projPair (nextDoy s d).eof1vector (nextDoy s d).eof2vector rots

/-- Translation of `calculate_angle_from_discontinuity`
(src/eof_rotation.py, lines 162-197): initialize the running pair to
day 1's `(eof1vector, eof2vector)`, project it onto the next day's
basis for every `d` in the day list (wrapping to day 1 at the end of
the cycle), and return minus the angle between day 1's `eof1vector`
and the propagated first vector, divided by the number of days. -/
noncomputable def calculate_angle_from_discontinuity (s : List EOFData) : ℝ :=
  -(angle_btwn_vectors (eofdata_for_doy s 1).eof1vector
      ((doy_list s.length).foldl (estStep s)
        ((eofdata_for_doy s 1).eof1vector, (eofdata_for_doy s 1).eof2vector)).1)
    / ((doy_list s.length).length : ℝ)

/-- Translation of `rotation_matrix` (src/eof_rotation.py, lines
155-159): `[[cos δ, -sin δ], [sin δ, cos δ]]` as a pair of rows. -/
noncomputable def rotation_matrix (delta : ℝ) : (ℝ × ℝ) × (ℝ × ℝ) :=
  ((Real.cos delta, -Real.sin delta), (Real.sin delta, Real.cos delta))

/-- Loop body of `rotate_each_eof_by_delta`:
`rots = np.matmul(np.matmul(np.matmul(B, B.T), A), R).T`.  With
`P = B Bᵀ`, the columns of `(P A) R` are
`R₁₁ (P u1) + R₂₁ (P u2)` and `R₁₂ (P u1) + R₂₂ (P u2)`. -/
def rotateStep (R : (ℝ × ℝ) × (ℝ × ℝ)) (doyn : EOFData) (u : Vec × Vec) :
    Vec × Vec :=
  (vadd (smul R.1.1 (projPair doyn.eof1vector doyn.eof2vector u).1)
        (smul R.2.1 (projPair doyn.eof1vector doyn.eof2vector u).2),
   vadd (smul R.1.2 (projPair doyn.eof1vector doyn.eof2vector u).1)
        (smul R.2.2 (projPair doyn.eof1vector doyn.eof2vector u).2))

/-- The `eof.EOFData(...)` constructor call shared by
`rotate_each_eof_by_delta` and `normalize_eofs`: a new frame with fresh
basis vectors and all provenance fields copied from `doyn`. -/
def rebuiltFrame (doyn : EOFData) (u : Vec × Vec) : EOFData :=
  { lat := doyn.lat, long := doyn.long,
    eof1vector := u.1, eof2vector := u.2,
    explained_variances := doyn.explained_variances,
    eigenvalues := doyn.eigenvalues,
    no_observations := doyn.no_observations }

/-- The `for d in list_of_doys[1:]` loop of `rotate_each_eof_by_delta`,
walking the frames of days `2 .. D` in order: each step projects the
running pair onto the current day's basis, mixes it through the
rotation, emits the rebuilt frame and carries the new pair forward. -/
def rotateGo (R : (ℝ × ℝ) × (ℝ × ℝ)) (u : Vec × Vec) :
    List EOFData → List EOFData
  | [] => []
  | f :: rest =>
      rebuiltFrame f (rotateStep R f u) :: rotateGo R (rotateStep R f u) rest

/-- Translation of `rotate_each_eof_by_delta` (src/eof_rotation.py,
lines 200-240): day 1's frame is appended unchanged, then the loop
over days `2 .. D` (the tail of the series, strictly increasing, no
wraparound) emits the projected-and-rotated frames. -/
noncomputable def rotate_each_eof_by_delta (s : List EOFData) (delta : ℝ) :
    List EOFData :=
  eofdata_for_doy s 1 ::
    rotateGo (rotation_matrix delta)
      ((eofdata_for_doy s 1).eof1vector, (eofdata_for_doy s 1).eof2vector)
      s.tail

/-- Translation of `rotate_eofs` (src/eof_rotation.py, lines 138-152):
compute the correction angle from the discontinuity, then rotate every
EOF by it. -/
noncomputable def rotate_eofs (s : List EOFData) : List EOFData :=
  rotate_each_eof_by_delta s (calculate_angle_from_discontinuity s)

/-- Body of the `normalize_eofs` loop for one day: rescale both basis
vectors to unit length, copying all other fields. -/
noncomputable def normFrame (doyn : EOFData) : EOFData :=
  rebuiltFrame doyn
    (vdiv doyn.eof1vector (norm doyn.eof1vector),
     vdiv doyn.eof2vector (norm doyn.eof2vector))

/-- Translation of `normalize_eofs` (src/eof_rotation.py, lines
243-267): for every day of the cycle, look the frame up and rebuild it
with unit-rescaled basis vectors. -/
noncomputable def normalize_eofs (s : List EOFData) : List EOFData :=
  (doy_list s.length).map (fun d => normFrame (eofdata_for_doy s d))

/-- Translation of `post_process_rotation` (src/eof_rotation.py, lines
107-135).  The sign-alignment step
`omi.correct_spontaneous_sign_changes_in_eof_series` is an external
collaborator (mjoindices); it is modelled from the spec as an abstract
function received by the pipeline, composed before rotation and
normalization. -/
noncomputable def post_process_rotation
    (correct_signs : List EOFData → List EOFData) (eofdata : List EOFData) :
    List EOFData :=
  normalize_eofs (rotate_eofs (correct_signs eofdata))

/-! ## Spec-side definitions

Definitions in this section follow the wording of the spec (sections
4.1-4.3, 7 and 8) rather than the source; they exist to be compared
with the source translations above. -/

/-- Spec wording of section 4.1: `arccos(clip(dot(v1,v2) /
(norm(v1)·norm(v2)), -1, 1))`. -/
noncomputable def angleSpec (v1 v2 : Vec) : ℝ :=
  Real.arccos (min (max (dot v1 v2 / (norm v1 * norm v2)) (-1)) 1)

/-- Spec wording of section 4.2, the running pair after `k` steps:
initialized to day 1's `(eof1, eof2)`; step `d = k + 1` takes the
basis `(b1, b2)` from day `d + 1` — wrapping to day 1 when `d = D` —
and replaces each running vector `u` by `b1·(b1 · u) + b2·(b2 · u)`. -/
noncomputable def uIterD (D : ℕ) (s : List EOFData) : ℕ → Vec × Vec
  | 0 => ((eofdata_for_doy s 1).eof1vector, (eofdata_for_doy s 1).eof2vector)
  | k + 1 =>
      projPair
        (if k + 1 = D then eofdata_for_doy s 1
         else eofdata_for_doy s (k + 2)).eof1vector
        (if k + 1 = D then eofdata_for_doy s 1
         else eofdata_for_doy s (k + 2)).eof2vector
        (uIterD D s k)

/-- Spec wording of section 4.2's result: minus the discontinuity angle
between day 1's `eof1` and the first vector of the pair propagated
once around the cycle of `D` days, divided by `D` — only the first
basis vector's drift is measured. -/
noncomputable def discSpecD (D : ℕ) (s : List EOFData) : ℝ :=
  -(angle_btwn_vectors (eofdata_for_doy s 1).eof1vector (uIterD D s D).1)
    / (D : ℝ)

/-- Spec wording of the section 4.3 step: re-project the running pair
onto day `d`'s original basis exactly as in the estimator pass
(`p_i = b1 (b1 · u_i) + b2 (b2 · u_i)`), then mix through the rotation
`u1' = cos δ · p1 + sin δ · p2`, `u2' = -sin δ · p1 + cos δ · p2`. -/
noncomputable def rotStepSpec (delta : ℝ) (f : EOFData) (u : Vec × Vec) :
    Vec × Vec :=
  (vadd (smul (Real.cos delta) (projPair f.eof1vector f.eof2vector u).1)
        (smul (Real.sin delta) (projPair f.eof1vector f.eof2vector u).2),
   vadd (smul (-Real.sin delta) (projPair f.eof1vector f.eof2vector u).1)
        (smul (Real.cos delta) (projPair f.eof1vector f.eof2vector u).2))

/-- Spec wording of section 4.3's running pair: `uRotD s δ k` is the
pair carried after processing day `k + 1`; day 1 contributes its own
`(eof1, eof2)` and each later day applies `rotStepSpec` with that
day's original basis. -/
noncomputable def uRotD (s : List EOFData) (delta : ℝ) : ℕ → Vec × Vec
  | 0 => ((eofdata_for_doy s 1).eof1vector, (eofdata_for_doy s 1).eof2vector)
  | k + 1 => rotStepSpec delta (eofdata_for_doy s (k + 2)) (uRotD s delta k)

/-- The closure quantity of spec section 8: re-run the section 4.2
projection pass once around the full cycle on a series and measure the
discontinuity angle between day 1's `eof1` and the propagated result
(the positive angle, before the sign flip and division of 4.2). -/
noncomputable def rerunDiscontinuity (s : List EOFData) : ℝ :=
  angle_btwn_vectors (eofdata_for_doy s 1).eof1vector
    ((doy_list s.length).foldl (estStep s)
      ((eofdata_for_doy s 1).eof1vector, (eofdata_for_doy s 1).eof2vector)).1

/-- The opaque provenance payload of a frame (spec section 3): grid
axes, explained variances, eigenvalues and observation count. -/
def provenance (f : EOFData) : List ℝ × List ℝ × List ℝ × List ℝ × ℕ :=
  (f.lat, f.long, f.explained_variances, f.eigenvalues, f.no_observations)

/-- A structurally valid sign-aligned input series per spec sections 3
and 7: a cycle of `D ∈ {365, 366}` frames, all sharing one vector
length `M`, with no zero basis vector. -/
def ValidSeries (s : List EOFData) : Prop :=
  (s.length = 365 ∨ s.length = 366) ∧
  (∃ M, ∀ f ∈ s, f.eof1vector.length = M ∧ f.eof2vector.length = M) ∧
  (∀ f ∈ s, 0 < dot f.eof1vector f.eof1vector ∧
            0 < dot f.eof2vector f.eof2vector)

/-! ## Fallible layer

Models which operations of the Python code can actually raise: a
day-of-year lookup past the end of the series raises `IndexError`, and
`np.dot` raises `ValueError` on 1-D arrays of mismatched length.
Division by a zero norm does *not* raise in numpy — it emits a warning
and yields non-finite values — so the model returns a value there. -/

/-- Fallible day lookup: `none` models the `IndexError` raised when the
series is shorter than the requested day of year. -/
def eofdata_for_doy_run (s : List EOFData) (d : ℕ) : Option EOFData :=
  s.get? (d - 1)

/-- Fallible `np.dot` on 1-D arrays: raises (`none`) exactly on
mismatched lengths. -/
def np_dot (v1 v2 : Vec) : Option ℝ :=
  if v1.length = v2.length then some (dot v1 v2) else none

/-- Fallible `angle_btwn_vectors`: only the `np.dot` call can raise;
`np.linalg.norm` and the division never do (a zero norm silently
yields a non-finite cosine argument, not an exception). -/
noncomputable def angle_btwn_vectors_run (v1 v2 : Vec) : Option ℝ :=
  (np_dot v1 v2).map
    (fun t => Real.arccos (npClip (t / (norm v1 * norm v2)) (-1) 1))

/-- The `normalize_eofs` loop over an explicit day list with fallible
lookups: the first missing day aborts the loop (`IndexError`); the
division by the norm never raises. -/
noncomputable def normRun (s : List EOFData) : List ℕ → Option (List EOFData)
  | [] => some []
  | d :: ds =>
      match eofdata_for_doy_run s d with
      | none => none
      | some f => (normRun s ds).map (fun rest => normFrame f :: rest)

/-- Fallible `normalize_eofs`, iterating the externally supplied day
list `1 .. D` (spec section 7's "expected D"). -/
noncomputable def normalize_eofs_run (D : ℕ) (s : List EOFData) :
    Option (List EOFData) :=
  normRun s (doy_list D)

/-- Claim of spec section 7, stated for refutation: every validation
failure — series length different from the expected day count,
mismatched vector lengths, or a zero vector reaching the angle
computation or normalization — aborts with no output. -/
def fatalValidationClaim : Prop :=
  (∀ D s, s.length ≠ D → normalize_eofs_run D s = none) ∧
  (∀ v1 v2 : Vec, v1.length ≠ v2.length → angle_btwn_vectors_run v1 v2 = none) ∧
  (∀ D s, (∃ f ∈ s, dot f.eof1vector f.eof1vector = 0 ∨
                    dot f.eof2vector f.eof2vector = 0) →
    normalize_eofs_run D s = none)

/-! ## Basic vector lemmas -/

@[simp] lemma dot_nil_left (w : Vec) : dot [] w = 0 := rfl

@[simp] lemma dot_nil_right (v : Vec) : dot v [] = 0 := by
  cases v <;> rfl

@[simp] lemma dot_cons (x y : ℝ) (xs ys : Vec) :
    dot (x :: xs) (y :: ys) = x * y + dot xs ys := by
  simp [dot]

@[simp] lemma smul_nil (c : ℝ) : smul c [] = [] := rfl

@[simp] lemma smul_cons (c x : ℝ) (xs : Vec) :
    smul c (x :: xs) = c * x :: smul c xs := rfl

@[simp] lemma vadd_nil_left (w : Vec) : vadd [] w = [] := rfl

@[simp] lemma vadd_nil_right (v : Vec) : vadd v [] = [] := by
  cases v <;> rfl

@[simp] lemma vadd_cons (x y : ℝ) (xs ys : Vec) :
    vadd (x :: xs) (y :: ys) = (x + y) :: vadd xs ys := rfl

@[simp] lemma vdiv_nil (c : ℝ) : vdiv [] c = [] := rfl

@[simp] lemma vdiv_cons (x : ℝ) (xs : Vec) (c : ℝ) :
    vdiv (x :: xs) c = x / c :: vdiv xs c := rfl

lemma dot_comm (v w : Vec) : dot v w = dot w v := by
  unfold dot
  rw [List.zipWith_comm_of_comm (· * ·) mul_comm]

lemma dot_self_nonneg (v : Vec) : 0 ≤ dot v v := by
  unfold dot
  rw [List.zipWith_same]
  exact List.sum_nonneg (fun x hx => by
    obtain ⟨a, _, rfl⟩ := List.mem_map.mp hx
    exact mul_self_nonneg a)

lemma norm_mul_self (v : Vec) : norm v * norm v = dot v v :=
  Real.mul_self_sqrt (dot_self_nonneg v)

lemma norm_nonneg' (v : Vec) : 0 ≤ norm v := Real.sqrt_nonneg _

lemma dot_smul_right (c : ℝ) : ∀ v w : Vec, dot v (smul c w) = c * dot v w := by
  intro v
  induction v with
  | nil => intro w; simp
  | cons x xs ih =>
    intro w
    cases w with
    | nil => simp
    | cons y ys => simp [ih]; ring

lemma dot_smul_left (c : ℝ) : ∀ v w : Vec, dot (smul c v) w = c * dot v w := by
  intro v w
  rw [dot_comm, dot_smul_right, dot_comm]

lemma smul_one (v : Vec) : smul 1 v = v := by
  induction v with
  | nil => rfl
  | cons x xs ih => simp [ih]

lemma vadd_smul_zero_right :
    ∀ v w : Vec, v.length = w.length → vadd v (smul 0 w) = v := by
  intro v
  induction v with
  | nil => intro w _; simp
  | cons x xs ih =>
    intro w hw
    cases w with
    | nil => simp at hw
    | cons y ys =>
      simp only [List.length_cons, Nat.succ.injEq] at hw
      simp [ih ys hw]

lemma vadd_smul_zero_left :
    ∀ v w : Vec, v.length = w.length → vadd (smul 0 w) v = v := by
  intro v
  induction v with
  | nil => intro w _; cases w <;> simp
  | cons x xs ih =>
    intro w hw
    cases w with
    | nil => simp at hw
    | cons y ys =>
      simp only [List.length_cons, Nat.succ.injEq] at hw
      simp [ih ys hw]

lemma dot_vdiv_vdiv (c : ℝ) :
    ∀ v w : Vec, dot (vdiv v c) (vdiv w c) = dot v w / (c * c) := by
  intro v
  induction v with
  | nil => intro w; simp
  | cons x xs ih =>
    intro w
    cases w with
    | nil => simp
    | cons y ys =>
      simp [ih]
      rw [add_div]
      congr 1
      rw [div_mul_div_comm]

lemma norm_vdiv_norm_self (v : Vec) (hv : 0 < dot v v) :
    norm (vdiv v (norm v)) = 1 := by
  unfold norm
  rw [dot_vdiv_vdiv, Real.mul_self_sqrt (dot_self_nonneg v), div_self hv.ne']
  exact Real.sqrt_one

lemma dot_vdiv_norm_self (v : Vec) (hv : 0 < dot v v) :
    dot (vdiv v (norm v)) (vdiv v (norm v)) = 1 := by
  rw [dot_vdiv_vdiv, norm_mul_self, div_self hv.ne']

/-! ## Angle lemmas -/

lemma angle_btwn_vectors_eq_angleSpec (v1 v2 : Vec) :
    angle_btwn_vectors v1 v2 = angleSpec v1 v2 := rfl

lemma angle_self (v : Vec) (hv : 0 < dot v v) : angle_btwn_vectors v v = 0 := by
  unfold angle_btwn_vectors npClip
  rw [norm_mul_self, div_self hv.ne']
  rw [max_eq_left (by norm_num), min_self]
  exact Real.arccos_one

lemma norm_eq_one_of_dot (v : Vec) (hv : dot v v = 1) : norm v = 1 := by
  unfold norm; rw [hv]; exact Real.sqrt_one

lemma angle_ortho (v1 v2 : Vec) (h1 : dot v1 v1 = 1) (h2 : dot v2 v2 = 1)
    (h12 : dot v1 v2 = 0) : angle_btwn_vectors v1 v2 = Real.pi / 2 := by
  unfold angle_btwn_vectors npClip
  rw [h12, norm_eq_one_of_dot v1 h1, norm_eq_one_of_dot v2 h2]
  norm_num

lemma angle_antiparallel (v : Vec) (hv : dot v v = 1) :
    angle_btwn_vectors v (smul (-1) v) = Real.pi := by
  unfold angle_btwn_vectors npClip
  rw [dot_smul_right, hv, norm_eq_one_of_dot v hv]
  have hs : norm (smul (-1) v) = 1 := by
    apply norm_eq_one_of_dot
    rw [dot_smul_left, dot_smul_right, hv]
    norm_num
  rw [hs]
  norm_num

/-! ## Structural lemmas about the loops -/

lemma foldl_fixed {α β : Type} (f : β → α → β) (b : β) :
    ∀ l : List α, (∀ a ∈ l, f b a = b) → l.foldl f b = b := by
  intro l
  induction l with
  | nil => intro _; rfl
  | cons x xs ih =>
    intro h
    rw [List.foldl_cons, h x (List.mem_cons_self x xs)]
    exact ih (fun a ha => h a (List.mem_cons_of_mem x ha))

lemma eofdata_for_doy_cons_succ (a : EOFData) (t : List EOFData) (d : ℕ)
    (hd : 1 ≤ d) : eofdata_for_doy (a :: t) (d + 1) = eofdata_for_doy t d := by
  obtain ⟨e, rfl⟩ := Nat.exists_eq_add_of_le hd
  unfold eofdata_for_doy
  rw [show 1 + e + 1 - 1 = e + 1 by omega, show 1 + e - 1 = e by omega,
    List.getD_cons_succ]

lemma map_doy_lookup (g : EOFData → EOFData) :
    ∀ s : List EOFData,
      (doy_list s.length).map (fun d => g (eofdata_for_doy s d)) = s.map g := by
  intro s
  induction s with
  | nil => rfl
  | cons a t ih =>
    show (List.range' 1 (t.length + 1)).map _ = _
    rw [List.range'_succ, List.map_cons]
    congr 1
    have h2 : List.range' 2 t.length = (List.range' 1 t.length).map (1 + ·) := by
      rw [List.map_add_range']
    rw [h2, List.map_map]
    rw [show ((fun d => g (eofdata_for_doy (a :: t) d)) ∘ (1 + ·)) =
        fun d => g (eofdata_for_doy (a :: t) (d + 1)) from by
      funext d; simp [Nat.add_comm]]
    rw [← ih]
    apply List.map_congr_left
    intro d hd
    obtain ⟨i, _, rfl⟩ := List.mem_range'.mp hd
    rw [eofdata_for_doy_cons_succ a t _ (by omega)]

lemma normalize_eofs_eq_map (s : List EOFData) :
    normalize_eofs s = s.map normFrame := map_doy_lookup normFrame s

lemma foldl_est_eq_uIterD (s : List EOFData) :
    ∀ n, n ≤ s.length →
      (List.range' 1 n).foldl (estStep s)
        ((eofdata_for_doy s 1).eof1vector, (eofdata_for_doy s 1).eof2vector)
        = uIterD s.length s n := by
  intro n
  induction n with
  | zero => intro _; rfl
  | succ k ih =>
    intro hk
    rw [List.range'_concat, List.foldl_append, List.foldl_cons, List.foldl_nil,
      ih (Nat.le_of_succ_le hk)]
    show estStep s (uIterD s.length s k) (1 + 1 * k) = uIterD s.length s (k + 1)
    rw [show 1 + 1 * k = k + 1 by ring]
    unfold estStep nextDoy doy_list
    rw [List.length_range']
    conv_rhs => rw [uIterD]
    by_cases h : k + 1 = s.length
    · rw [if_pos (by omega), if_pos h]
    · rw [if_neg (by omega), if_neg h]

lemma calc_eq_discSpecD (s : List EOFData) :
    calculate_angle_from_discontinuity s = discSpecD s.length s := by
  unfold calculate_angle_from_discontinuity discSpecD doy_list
  rw [List.length_range', foldl_est_eq_uIterD s s.length (le_refl _)]

/-- Running pair threaded through `rotateGo`, after `k` of the steps
over the frame list `l`. -/
def uGoSeq (R : (ℝ × ℝ) × (ℝ × ℝ)) (u : Vec × Vec) (l : List EOFData) :
    ℕ → Vec × Vec
  | 0 => u
  | k + 1 => rotateStep R (l.getD k default) (uGoSeq R u l k)

lemma uGoSeq_cons (R : (ℝ × ℝ) × (ℝ × ℝ)) (u : Vec × Vec) (f : EOFData)
    (rest : List EOFData) :
    ∀ k, uGoSeq R u (f :: rest) (k + 1) =
      uGoSeq R (rotateStep R f u) rest k := by
  intro k
  induction k with
  | zero => rfl
  | succ j ih =>
    show rotateStep R ((f :: rest).getD (j + 1) default) _ = _
    rw [List.getD_cons_succ, ih]
    rfl

lemma rotateGo_length (R : (ℝ × ℝ) × (ℝ × ℝ)) :
    ∀ (l : List EOFData) (u : Vec × Vec), (rotateGo R u l).length = l.length := by
  intro l
  induction l with
  | nil => intro u; rfl
  | cons f rest ih => intro u; simp [rotateGo, ih]

lemma rotateGo_getD (R : (ℝ × ℝ) × (ℝ × ℝ)) :
    ∀ (l : List EOFData) (u : Vec × Vec) (j : ℕ), j < l.length →
      (rotateGo R u l).getD j default =
        rebuiltFrame (l.getD j default) (uGoSeq R u l (j + 1)) := by
  intro l
  induction l with
  | nil => intro u j hj; simp at hj
  | cons f rest ih =>
    intro u j hj
    cases j with
    | zero => rfl
    | succ i =>
      show (rotateGo R (rotateStep R f u) rest).getD i default = _
      rw [ih (rotateStep R f u) i (by simpa using hj), uGoSeq_cons,
        List.getD_cons_succ]

lemma rotStepSpec_eq_rotateStep (delta : ℝ) (f : EOFData) (u : Vec × Vec) :
    rotStepSpec delta f u = rotateStep (rotation_matrix delta) f u := rfl

lemma uRotD_eq_uGoSeq (s : List EOFData) (delta : ℝ) (hs : s ≠ []) :
    ∀ k, uRotD s delta k =
      uGoSeq (rotation_matrix delta)
        ((eofdata_for_doy s 1).eof1vector, (eofdata_for_doy s 1).eof2vector)
        s.tail k := by
  intro k
  induction k with
  | zero => rfl
  | succ j ih =>
    show rotStepSpec delta (eofdata_for_doy s (j + 2)) (uRotD s delta j) = _
    rw [ih, rotStepSpec_eq_rotateStep]
    show rotateStep _ (eofdata_for_doy s (j + 2)) _ =
      rotateStep _ (s.tail.getD j default) _
    congr 1
    obtain ⟨a, t, rfl⟩ : ∃ a t, s = a :: t := by
      cases s with
      | nil => exact absurd rfl hs
      | cons a t => exact ⟨a, t, rfl⟩
    rw [show j + 2 = (j + 1) + 1 from rfl,
      eofdata_for_doy_cons_succ a t (j + 1) (by omega)]
    rfl

/-! ## Further small lemmas and concrete test frames -/

lemma vdiv_one (v : Vec) : vdiv v 1 = v := by
  induction v with
  | nil => rfl
  | cons x xs ih => simp [ih]

lemma getD_map_lt (g : EOFData → EOFData) :
    ∀ (s : List EOFData) (k : ℕ), k < s.length →
      (s.map g).getD k default = g (s.getD k default) := by
  intro s
  induction s with
  | nil => intro k hk; simp at hk
  | cons a t ih =>
    intro k hk
    cases k with
    | zero => rfl
    | succ j =>
      rw [List.map_cons, List.getD_cons_succ, List.getD_cons_succ]
      exact ih j (by simpa using hk)

lemma getD_mem (s : List EOFData) (k : ℕ) (hk : k < s.length) :
    s.getD k default ∈ s := by
  rw [List.getD_eq_getElem s default hk]
  exact List.getElem_mem hk

lemma angle_btwn_nonneg (v w : Vec) : 0 ≤ angle_btwn_vectors v w :=
  Real.arccos_nonneg _

lemma angle_btwn_le_pi (v w : Vec) : angle_btwn_vectors v w ≤ Real.pi :=
  Real.arccos_le_pi _

lemma neg_div_cast_bounds (A : ℝ) (D : ℕ) (h0 : 0 ≤ A) (hpi : A ≤ Real.pi) :
    -Real.pi / (D : ℝ) ≤ -A / (D : ℝ) ∧ -A / (D : ℝ) ≤ 0 := by
  rcases Nat.eq_zero_or_pos D with hD | hD
  · subst hD
    norm_num
  · have hDR : (0 : ℝ) < (D : ℝ) := by exact_mod_cast hD
    constructor
    · rw [neg_div, neg_div, neg_le_neg_iff]
      exact (div_le_div_iff_of_pos_right hDR).mpr hpi
    · rw [neg_div, neg_nonpos]
      exact div_nonneg h0 hDR.le

/-- Concrete test frame: the standard orthonormal basis of a 2-point
grid, with empty provenance payload. -/
def fstd : EOFData := ⟨[], [], [1, 0], [0, 1], [], [], 0⟩

/-! ## Claim C2: the estimator follows the spec recurrence -/

/-- C2: `calculate_angle_from_discontinuity` initializes the running
pair to day 1's `(eof1, eof2)`, and for `d = 1 .. D` (with `D` the
series length) projects it onto day `d+1`'s basis — wrapping to day 1
when `d = D` — by `u ↦ b1·(b1 · u) + b2·(b2 · u)`; it returns
`-angle(day1.eof1, u1_final) / D`, measuring only the first basis
vector's drift.  Stated as: the source translation equals the spec
recurrence `discSpecD`. -/
theorem estimator_matches_spec_recurrence (s : List EOFData) :
    calculate_angle_from_discontinuity s = discSpecD s.length s :=
  calc_eq_discSpecD s

/-! ## Claim C6: AngleUtility correctness -/

/-- C6: for equal-length nonzero vectors, `angle_btwn_vectors` is
`arccos(clip(dot/(norm·norm), -1, 1))` (the spec formula `angleSpec`,
clip always applied); the angle of a vector with itself is `0`, of
orthogonal unit vectors `π/2`, and of antiparallel unit vectors `π`. -/
theorem angle_utility_correct :
    (∀ v1 v2 : Vec, 0 < dot v1 v1 → 0 < dot v2 v2 → v1.length = v2.length →
      angle_btwn_vectors v1 v2 = angleSpec v1 v2) ∧
    (∀ v : Vec, 0 < dot v v → angle_btwn_vectors v v = 0) ∧
    (∀ v1 v2 : Vec, dot v1 v1 = 1 → dot v2 v2 = 1 → dot v1 v2 = 0 →
      angle_btwn_vectors v1 v2 = Real.pi / 2) ∧
    (∀ v : Vec, dot v v = 1 → angle_btwn_vectors v (smul (-1) v) = Real.pi) :=
  ⟨fun v1 v2 _ _ _ => angle_btwn_vectors_eq_angleSpec v1 v2,
   angle_self, angle_ortho, angle_antiparallel⟩

/-- Witness for C6 at concrete inputs. -/
theorem angle_utility_correct_witness :
    ((0 : ℝ) < dot [1, 0] [1, 0] ∧
      angle_btwn_vectors [1, 0] [1, 0] = 0) ∧
    (dot ([1, 0] : Vec) [0, 1] = 0 ∧
      angle_btwn_vectors [1, 0] [0, 1] = Real.pi / 2) ∧
    angle_btwn_vectors [1, 0] (smul (-1) [1, 0]) = Real.pi :=
  ⟨⟨by norm_num, angle_utility_correct.2.1 [1, 0] (by norm_num)⟩,
   ⟨by norm_num,
    angle_utility_correct.2.2.1 [1, 0] [0, 1] (by norm_num) (by norm_num)
      (by norm_num)⟩,
   angle_utility_correct.2.2.2 [1, 0] (by norm_num)⟩

/-! ## Claim C7: normalizer postcondition -/

/-- Conclusion of claim C7 for a series `s`: the normalized series has
the same length; day by day the output vectors are the input vectors
divided by their norms, the output norms are within `1e-9` of `1`, and
the provenance payload is copied unchanged. -/
noncomputable def NormalizerPostcondition (s : List EOFData) : Prop :=
  (normalize_eofs s).length = s.length ∧
  ∀ k, k < s.length →
    ((normalize_eofs s).getD k default).eof1vector =
      vdiv (s.getD k default).eof1vector (norm (s.getD k default).eof1vector) ∧
    ((normalize_eofs s).getD k default).eof2vector =
      vdiv (s.getD k default).eof2vector (norm (s.getD k default).eof2vector) ∧
    |norm ((normalize_eofs s).getD k default).eof1vector - 1| < 1e-9 ∧
    |norm ((normalize_eofs s).getD k default).eof2vector - 1| < 1e-9 ∧
    provenance ((normalize_eofs s).getD k default) =
      provenance (s.getD k default)

/-- C7: for every input series with nonzero vectors, `normalize_eofs`
satisfies the normalizer postcondition. -/
theorem normalizer_postcondition (s : List EOFData)
    (h : ∀ f ∈ s, 0 < dot f.eof1vector f.eof1vector ∧
                  0 < dot f.eof2vector f.eof2vector) :
    NormalizerPostcondition s := by
  unfold NormalizerPostcondition
  rw [normalize_eofs_eq_map]
  refine ⟨List.length_map s normFrame, ?_⟩
  intro k hk
  rw [getD_map_lt normFrame s k hk]
  obtain ⟨h1, h2⟩ := h (s.getD k default) (getD_mem s k hk)
  refine ⟨rfl, rfl, ?_, ?_, rfl⟩
  · show |norm (vdiv (s.getD k default).eof1vector
      (norm (s.getD k default).eof1vector)) - 1| < 1e-9
    rw [norm_vdiv_norm_self _ h1]
    norm_num
  · show |norm (vdiv (s.getD k default).eof2vector
      (norm (s.getD k default).eof2vector)) - 1| < 1e-9
    rw [norm_vdiv_norm_self _ h2]
    norm_num

/-- Witness for C7 on a concrete one-day series. -/
theorem normalizer_postcondition_witness :
    (∀ f ∈ [fstd], 0 < dot f.eof1vector f.eof1vector ∧
                   0 < dot f.eof2vector f.eof2vector) ∧
    NormalizerPostcondition [fstd] :=
  ⟨by intro f hf; simp only [List.mem_singleton] at hf; subst hf
      constructor <;> norm_num [fstd],
   normalizer_postcondition [fstd]
     (by intro f hf; simp only [List.mem_singleton] at hf; subst hf
         constructor <;> norm_num [fstd])⟩

/-! ## Claim C8: idempotent normalization -/

/-- C8: applying the normalizer to its own output changes nothing: in
the real-arithmetic model the twice-normalized series is exactly the
once-normalized one (stronger than the claim's `1e-12` tolerance). -/
theorem normalize_idempotent (s : List EOFData)
    (h : ∀ f ∈ s, 0 < dot f.eof1vector f.eof1vector ∧
                  0 < dot f.eof2vector f.eof2vector) :
    normalize_eofs (normalize_eofs s) = normalize_eofs s := by
  rw [normalize_eofs_eq_map (normalize_eofs s), normalize_eofs_eq_map s,
    List.map_map]
  apply List.map_congr_left
  intro f hf
  obtain ⟨h1, h2⟩ := h f hf
  show normFrame (normFrame f) = normFrame f
  unfold normFrame rebuiltFrame
  simp only
  rw [norm_vdiv_norm_self _ h1, norm_vdiv_norm_self _ h2, vdiv_one, vdiv_one]

/-- Witness for C8 on a concrete one-day series. -/
theorem normalize_idempotent_witness :
    (∀ f ∈ [fstd], 0 < dot f.eof1vector f.eof1vector ∧
                   0 < dot f.eof2vector f.eof2vector) ∧
    normalize_eofs (normalize_eofs [fstd]) = normalize_eofs [fstd] :=
  ⟨by intro f hf; simp only [List.mem_singleton] at hf; subst hf
      constructor <;> norm_num [fstd],
   normalize_idempotent [fstd]
     (by intro f hf; simp only [List.mem_singleton] at hf; subst hf
         constructor <;> norm_num [fstd])⟩

/-! ## Claim C9: length and provenance preservation -/

/-- Conclusion of claim C9 for a series `s` and rotation angle `delta`:
both stages return a series of exactly the input length, and day by
day the provenance payload of the output frame equals the input
frame's, never recomputed. -/
noncomputable def LengthProvenancePreservation (s : List EOFData) (delta : ℝ) :
    Prop :=
  (rotate_each_eof_by_delta s delta).length = s.length ∧
  (normalize_eofs s).length = s.length ∧
  ∀ k, k < s.length →
    provenance ((rotate_each_eof_by_delta s delta).getD k default) =
      provenance (s.getD k default) ∧
    provenance ((normalize_eofs s).getD k default) =
      provenance (s.getD k default)

lemma tail_getD (a : EOFData) (t : List EOFData) (k : ℕ) :
    (a :: t).tail.getD k default = (a :: t).getD (k + 1) default := rfl

/-- C9: both `rotate_each_eof_by_delta` (hence `rotate_eofs`) and
`normalize_eofs` preserve the series length and copy every day's
provenance payload verbatim. -/
theorem length_and_provenance_preserved (s : List EOFData) (delta : ℝ)
    (h : 1 ≤ s.length) : LengthProvenancePreservation s delta := by
  obtain ⟨a, t, rfl⟩ : ∃ a t, s = a :: t := by
    cases s with
    | nil => simp at h
    | cons a t => exact ⟨a, t, rfl⟩
  unfold LengthProvenancePreservation
  refine ⟨?_, ?_, ?_⟩
  · show (eofdata_for_doy (a :: t) 1 :: rotateGo _ _ (a :: t).tail).length = _
    rw [List.length_cons, rotateGo_length]
    rfl
  · rw [normalize_eofs_eq_map, List.length_map]
  · intro k hk
    constructor
    · cases k with
      | zero => rfl
      | succ j =>
        show provenance ((rotateGo _ _ (a :: t).tail).getD j default) = _
        rw [rotateGo_getD _ _ _ j (by simpa using hk), tail_getD]
        rfl
    · rw [normalize_eofs_eq_map, getD_map_lt normFrame _ k hk]
      rfl

/-- Witness for C9 on a concrete series. -/
theorem length_and_provenance_preserved_witness :
    1 ≤ ([fstd, fstd] : List EOFData).length ∧
    LengthProvenancePreservation [fstd, fstd] 0 :=
  ⟨by simp, length_and_provenance_preserved [fstd, fstd] 0 (by simp)⟩

/-! ## Claim C10: range of the correction angle -/

/-- C10: the correction angle returned by
`calculate_angle_from_discontinuity` always lies in `[-π/D, 0]` where
`D` is the series length — the measured discontinuity is an `arccos`
value in `[0, π]`, negated and divided by `D`, so the per-day
correction never rotates in the positive direction.  (Proved without
any nonzero-vector hypotheses: the clip keeps the `arccos` argument in
`[-1, 1]` in every case.) -/
theorem correction_angle_range (s : List EOFData) :
    -Real.pi / (s.length : ℝ) ≤ calculate_angle_from_discontinuity s ∧
    calculate_angle_from_discontinuity s ≤ 0 := by
  unfold calculate_angle_from_discontinuity
  rw [doy_list, List.length_range']
  exact neg_div_cast_bounds _ s.length (angle_btwn_nonneg _ _)
    (angle_btwn_le_pi _ _)

/-! ## Claim C3: the rotator follows the spec step -/

/-- Conclusion of claim C3 for a series `s` and angle `delta`: the
output keeps the length; day 1's frame is emitted unchanged as the
fixed reference; the source's matrix wiring equals the spec's mixing
formula (`u1' = cos δ · p1 + sin δ · p2`,
`u2' = -sin δ · p1 + cos δ · p2` after the estimator-style
re-projection); and for `d = 2 .. D` (no wraparound) the emitted frame
for day `d` rebuilds day `d`'s input frame around the running pair
`uRotD` carried from the previous day. -/
noncomputable def RotatorCharacterization (s : List EOFData) (delta : ℝ) :
    Prop :=
  (rotate_each_eof_by_delta s delta).length = s.length ∧
  (rotate_each_eof_by_delta s delta).getD 0 default = s.getD 0 default ∧
  (∀ (f : EOFData) (u : Vec × Vec),
    rotateStep (rotation_matrix delta) f u = rotStepSpec delta f u) ∧
  ∀ k, k + 1 < s.length →
    (rotate_each_eof_by_delta s delta).getD (k + 1) default =
      rebuiltFrame (s.getD (k + 1) default) (uRotD s delta (k + 1))

/-- C3: for every series with at least one day and every `delta`,
`rotate_each_eof_by_delta` satisfies the rotator characterization. -/
theorem rotator_step_characterization (s : List EOFData) (delta : ℝ)
    (h : 1 ≤ s.length) : RotatorCharacterization s delta := by
  obtain ⟨a, t, rfl⟩ : ∃ a t, s = a :: t := by
    cases s with
    | nil => simp at h
    | cons a t => exact ⟨a, t, rfl⟩
  unfold RotatorCharacterization
  refine ⟨?_, rfl, fun f u => (rotStepSpec_eq_rotateStep delta f u).symm, ?_⟩
  · show (eofdata_for_doy (a :: t) 1 :: rotateGo _ _ (a :: t).tail).length = _
    rw [List.length_cons, rotateGo_length]
    rfl
  · intro k hk
    show (rotateGo _ _ (a :: t).tail).getD k default = _
    rw [rotateGo_getD _ _ _ k (by simpa using hk), tail_getD,
      uRotD_eq_uGoSeq (a :: t) delta (by simp) (k + 1)]

/-- Witness for C3 on a concrete series and angle. -/
theorem rotator_step_characterization_witness :
    1 ≤ ([fstd, fstd] : List EOFData).length ∧
    RotatorCharacterization [fstd, fstd] 0 :=
  ⟨by simp, rotator_step_characterization [fstd, fstd] 0 (by simp)⟩

/-! ## Claim C4: day-count genericity -/

lemma rotate_each_length (s : List EOFData) (delta : ℝ) (h : 1 ≤ s.length) :
    (rotate_each_eof_by_delta s delta).length = s.length := by
  obtain ⟨a, t, rfl⟩ : ∃ a t, s = a :: t := by
    cases s with
    | nil => simp at h
    | cons a t => exact ⟨a, t, rfl⟩
  show (eofdata_for_doy (a :: t) 1 :: rotateGo _ _ (a :: t).tail).length = _
  rw [List.length_cons, rotateGo_length]
  rfl

lemma normalize_length (s : List EOFData) :
    (normalize_eofs s).length = s.length := by
  rw [normalize_eofs_eq_map, List.length_map]

/-- C4: with the day count `D` bound explicitly and the series as the
only other input, for both `D = 365` and `D = 366` the core behaves as
the same uniform cyclic-sequence algorithm: the estimator satisfies
the `discSpecD D` recurrence with the wrap at `D`, and rotation
followed by normalization returns a series of exactly `D` frames.  No
day-count constant enters anywhere: the same theorem instance covers
both values of `D`. -/
theorem day_count_generic (D : ℕ) (hD : D = 365 ∨ D = 366)
    (s : List EOFData) (hs : s.length = D) :
    calculate_angle_from_discontinuity s = discSpecD D s ∧
    (rotate_eofs s).length = D ∧
    (normalize_eofs (rotate_eofs s)).length = D ∧
    ∀ sa : List EOFData → List EOFData, (sa s).length = D →
      (post_process_rotation sa s).length = D := by
  have h1 : 1 ≤ s.length := by
    rcases hD with h | h <;> omega
  have hrot : (rotate_eofs s).length = D := by
    rw [← hs]
    exact rotate_each_length s _ h1
  refine ⟨?_, hrot, ?_, ?_⟩
  · rw [← hs]
    exact calc_eq_discSpecD s
  · rw [normalize_length, hrot]
  · intro sa hsa
    unfold post_process_rotation rotate_eofs
    rw [normalize_length, rotate_each_length _ _ (by omega), hsa]

/-- Witness for C4 at `D = 365` on a concrete series. -/
theorem day_count_generic_witness :
    (List.replicate 365 fstd).length = 365 ∧
    (calculate_angle_from_discontinuity (List.replicate 365 fstd) =
        discSpecD 365 (List.replicate 365 fstd) ∧
      (rotate_eofs (List.replicate 365 fstd)).length = 365 ∧
      (normalize_eofs (rotate_eofs (List.replicate 365 fstd))).length = 365 ∧
      ∀ sa : List EOFData → List EOFData,
        (sa (List.replicate 365 fstd)).length = 365 →
        (post_process_rotation sa (List.replicate 365 fstd)).length = 365) :=
  ⟨by rw [List.length_replicate],
   day_count_generic 365 (Or.inl rfl) _ (by rw [List.length_replicate])⟩

/-! ## Claim C5: which validation failures are fatal -/

lemma normRun_none_of_mem (s : List EOFData) :
    ∀ (l : List ℕ) (d : ℕ), d ∈ l → eofdata_for_doy_run s d = none →
      normRun s l = none := by
  intro l
  induction l with
  | nil => intro d hd _; simp at hd
  | cons x xs ih =>
    intro d hd hnone
    show (match eofdata_for_doy_run s x with
      | none => none
      | some f => (normRun s xs).map (fun rest => normFrame f :: rest)) = none
    rcases List.mem_cons.mp hd with rfl | hd'
    · rw [hnone]
    · cases hx : eofdata_for_doy_run s x with
      | none => rfl
      | some f => rw [ih d hd' hnone]; rfl

lemma normRun_all_present (s : List EOFData) :
    ∀ l : List ℕ, (∀ d ∈ l, d - 1 < s.length) →
      normRun s l =
        some (l.map (fun d => normFrame (eofdata_for_doy s d))) := by
  intro l
  induction l with
  | nil => intro _; rfl
  | cons x xs ih =>
    intro h
    have hx : x - 1 < s.length := h x (List.mem_cons_self x xs)
    have hsome : eofdata_for_doy_run s x = some (eofdata_for_doy s x) := by
      unfold eofdata_for_doy_run eofdata_for_doy
      rw [List.get?_eq_getElem?, List.getElem?_eq_getElem hx,
        List.getD_eq_getElem s default hx]
    show (match eofdata_for_doy_run s x with
      | none => none
      | some f => (normRun s xs).map (fun rest => normFrame f :: rest)) = _
    rw [hsome, ih (fun d hd => h d (List.mem_cons_of_mem x hd))]
    rfl

/-- Concrete frame whose first basis vector is the zero vector. -/
def zf : EOFData := ⟨[], [], [0, 0], [0, 1], [], [], 0⟩

/-- Counterexample to C5: a zero basis vector is not fatal.  On the
one-day series `[zf]`, whose day 1 `eof1` is the zero vector,
`normalize_eofs_run` returns a full output series instead of aborting,
so the fatal-validation claim is false. -/
theorem validation_fatal_counterexample : ¬ fatalValidationClaim := by
  intro h
  have hzero : dot zf.eof1vector zf.eof1vector = 0 := by
    norm_num [zf]
  have habort := h.2.2 1 [zf]
    ⟨zf, List.mem_singleton_self zf, Or.inl hzero⟩
  have hok : normalize_eofs_run 1 [zf] = some [normFrame zf] := by
    unfold normalize_eofs_run doy_list
    rw [show List.range' 1 1 = [1] from rfl,
      normRun_all_present [zf] [1]
        (by intro d hd; simp at hd; subst hd; norm_num)]
    rfl
  rw [habort] at hok
  exact Option.noConfusion hok

/-- Amended C5: a series shorter than the expected `D` aborts at the
first missing day lookup, and mismatched vector lengths abort inside
`np.dot`; but a zero vector is not fatal — the angle computation and
the normalization run to completion and a full-length output series is
still returned, regardless of zero vectors. -/
theorem validation_fatal_amended :
    (∀ D (s : List EOFData), s.length < D → normalize_eofs_run D s = none) ∧
    (∀ v1 v2 : Vec, v1.length ≠ v2.length →
      angle_btwn_vectors_run v1 v2 = none) ∧
    (∀ D (s : List EOFData), s.length = D →
      normalize_eofs_run D s = some (normalize_eofs s)) := by
  refine ⟨?_, ?_, ?_⟩
  · intro D s hlt
    apply normRun_none_of_mem s (doy_list D) (s.length + 1)
    · unfold doy_list
      exact List.mem_range'.mpr ⟨s.length, hlt, by omega⟩
    · unfold eofdata_for_doy_run
      rw [Nat.add_sub_cancel]
      exact List.get?_eq_none.mpr (le_refl _)
  · intro v1 v2 hne
    unfold angle_btwn_vectors_run np_dot
    rw [if_neg hne]
    rfl
  · intro D s hs
    subst hs
    unfold normalize_eofs_run
    rw [normRun_all_present s (doy_list s.length) (by
      intro d hd
      obtain ⟨i, hi, rfl⟩ := List.mem_range'.mp hd
      omega)]
    rfl

/-- Witness for the amended C5 at concrete inputs. -/
theorem validation_fatal_amended_witness :
    (([] : List EOFData).length < 1 ∧ normalize_eofs_run 1 [] = none) ∧
    (([1] : Vec).length ≠ ([] : Vec).length ∧
      angle_btwn_vectors_run [1] [] = none) ∧
    (([zf] : List EOFData).length = 1 ∧
      normalize_eofs_run 1 [zf] = some (normalize_eofs [zf])) :=
  ⟨⟨by simp, validation_fatal_amended.1 1 [] (by simp)⟩,
   ⟨by simp, validation_fatal_amended.2.1 [1] [] (by simp)⟩,
   ⟨by simp, validation_fatal_amended.2.2 1 [zf] (by simp)⟩⟩

/-! ## Claim C1: closure after rotation — general lemmas -/

lemma smul_length (c : ℝ) (v : Vec) : (smul c v).length = v.length :=
  List.length_map v _

lemma vadd_length (v w : Vec) : (vadd v w).length = min v.length w.length :=
  List.length_zipWith _ v w

lemma projPair_lengths (b1 b2 : Vec) (u : Vec × Vec) :
    (projPair b1 b2 u).1.length = (projPair b1 b2 u).2.length := by
  unfold projPair
  simp only [vadd_length, smul_length]

/-- With `delta = 0` the rotation matrix is the identity and the
rotator step reduces to the bare estimator-style re-projection. -/
lemma rotateStep_zero (f : EOFData) (u : Vec × Vec) :
    rotateStep (rotation_matrix 0) f u = projPair f.eof1vector f.eof2vector u := by
  unfold rotateStep rotation_matrix
  simp only [Real.cos_zero, Real.sin_zero, neg_zero]
  rw [smul_one, smul_one]
  rw [vadd_smul_zero_right _ _ (projPair_lengths f.eof1vector f.eof2vector u),
    vadd_smul_zero_left _ _ (projPair_lengths f.eof1vector f.eof2vector u).symm]

/-- An orthonormal pair is fixed by its own span-sum projection. -/
lemma projPair_orthonormal_fixed (b1 b2 : Vec) (h1 : dot b1 b1 = 1)
    (h2 : dot b2 b2 = 1) (h12 : dot b1 b2 = 0)
    (hlen : b1.length = b2.length) :
    projPair b1 b2 (b1, b2) = (b1, b2) := by
  unfold projPair
  rw [show dot b2 b1 = 0 from (dot_comm b2 b1).trans h12, h1, h2, h12]
  rw [smul_one, smul_one]
  rw [vadd_smul_zero_right b1 b2 hlen, vadd_smul_zero_left b2 b1 hlen.symm]

lemma getD_replicate {α : Type} [Inhabited α] (a : α) (n k : ℕ) (hk : k < n) :
    (List.replicate n a).getD k default = a := by
  rw [List.getD_eq_getElem?_getD, List.getElem?_replicate, if_pos hk]
  rfl

/-- Rebuilding a frame around its own basis pair is the identity. -/
lemma rebuiltFrame_self (f : EOFData) :
    rebuiltFrame f (f.eof1vector, f.eof2vector) = f := rfl

lemma eofdata_for_doy_replicate (D : ℕ) (f : EOFData) (d : ℕ) (h1 : 1 ≤ d)
    (h2 : d ≤ D) : eofdata_for_doy (List.replicate D f) d = f := by
  unfold eofdata_for_doy
  rw [getD_replicate f D (d - 1) (by omega)]

lemma nextDoy_replicate (D : ℕ) (f : EOFData) (d : ℕ) (hD : 1 ≤ D)
    (h1 : 1 ≤ d) (_h2 : d ≤ D) :
    nextDoy (List.replicate D f) d = f := by
  unfold nextDoy doy_list
  rw [List.length_replicate, List.length_range']
  by_cases h : d + 1 > D
  · rw [if_pos h]
    exact eofdata_for_doy_replicate D f 1 (le_refl 1) hD
  · rw [if_neg h]
    exact eofdata_for_doy_replicate D f (d + 1) (by omega) (by omega)

lemma est_fold_replicate (D : ℕ) (f : EOFData) (hD : 1 ≤ D)
    (h1 : dot f.eof1vector f.eof1vector = 1)
    (h2 : dot f.eof2vector f.eof2vector = 1)
    (h12 : dot f.eof1vector f.eof2vector = 0)
    (hlen : f.eof1vector.length = f.eof2vector.length) :
    (doy_list (List.replicate D f).length).foldl
      (estStep (List.replicate D f)) (f.eof1vector, f.eof2vector)
      = (f.eof1vector, f.eof2vector) := by
  apply foldl_fixed
  intro d hd
  rw [List.length_replicate] at hd
  obtain ⟨i, hi, rfl⟩ := List.mem_range'.mp hd
  unfold estStep
  rw [nextDoy_replicate D f _ hD (by omega) (by omega)]
  exact projPair_orthonormal_fixed _ _ h1 h2 h12 hlen

lemma rotateGo_zero_replicate (f : EOFData)
    (h1 : dot f.eof1vector f.eof1vector = 1)
    (h2 : dot f.eof2vector f.eof2vector = 1)
    (h12 : dot f.eof1vector f.eof2vector = 0)
    (hlen : f.eof1vector.length = f.eof2vector.length) :
    ∀ n, rotateGo (rotation_matrix 0) (f.eof1vector, f.eof2vector)
      (List.replicate n f) = List.replicate n f := by
  intro n
  induction n with
  | zero => rfl
  | succ m ih =>
    rw [List.replicate_succ]
    show rebuiltFrame f _ :: rotateGo _ _ _ = _
    rw [rotateStep_zero, projPair_orthonormal_fixed _ _ h1 h2 h12 hlen,
      rebuiltFrame_self, ih]

/-- On a constant orthonormal series the estimator measures a zero
discontinuity, so the correction angle is exactly zero. -/
lemma calc_replicate_orthonormal (D : ℕ) (f : EOFData) (hD : 1 ≤ D)
    (h1 : dot f.eof1vector f.eof1vector = 1)
    (h2 : dot f.eof2vector f.eof2vector = 1)
    (h12 : dot f.eof1vector f.eof2vector = 0)
    (hlen : f.eof1vector.length = f.eof2vector.length) :
    calculate_angle_from_discontinuity (List.replicate D f) = 0 := by
  unfold calculate_angle_from_discontinuity
  rw [eofdata_for_doy_replicate D f 1 (le_refl 1) hD,
    est_fold_replicate D f hD h1 h2 h12 hlen]
  rw [angle_self f.eof1vector (by rw [h1]; norm_num)]
  rw [neg_zero, zero_div]

/-- On a constant orthonormal series the whole rotation stage is the
identity. -/
lemma rotate_eofs_replicate_orthonormal (D : ℕ) (f : EOFData) (hD : 1 ≤ D)
    (h1 : dot f.eof1vector f.eof1vector = 1)
    (h2 : dot f.eof2vector f.eof2vector = 1)
    (h12 : dot f.eof1vector f.eof2vector = 0)
    (hlen : f.eof1vector.length = f.eof2vector.length) :
    rotate_eofs (List.replicate D f) = List.replicate D f := by
  unfold rotate_eofs
  rw [calc_replicate_orthonormal D f hD h1 h2 h12 hlen]
  unfold rotate_each_eof_by_delta
  rw [eofdata_for_doy_replicate D f 1 (le_refl 1) hD, List.tail_replicate,
    rotateGo_zero_replicate f h1 h2 h12 hlen]
  rw [← List.replicate_succ]
  congr 1
  omega

/-- Amended C1: closure holds for every input series whose days all
share one common orthonormal frame (any cycle length `D ≥ 1`, covering
`D = 365` and `D = 366`): the correction angle is zero, the rotated
output equals the input, and re-running the section 4.2 projection
pass once around the full cycle on the output yields a discontinuity
angle below `1e-6` radians (indeed exactly zero). -/
theorem closure_amended (D : ℕ) (f : EOFData) (hD : 1 ≤ D)
    (h1 : dot f.eof1vector f.eof1vector = 1)
    (h2 : dot f.eof2vector f.eof2vector = 1)
    (h12 : dot f.eof1vector f.eof2vector = 0)
    (hlen : f.eof1vector.length = f.eof2vector.length) :
    rerunDiscontinuity (rotate_eofs (List.replicate D f)) < 1e-6 := by
  rw [rotate_eofs_replicate_orthonormal D f hD h1 h2 h12 hlen]
  unfold rerunDiscontinuity
  rw [eofdata_for_doy_replicate D f 1 (le_refl 1) hD,
    est_fold_replicate D f hD h1 h2 h12 hlen]
  rw [angle_self f.eof1vector (by rw [h1]; norm_num)]
  norm_num

/-- Witness for the amended C1 at `D = 365` with the standard
orthonormal frame. -/
theorem closure_amended_witness :
    (1 ≤ 365 ∧ dot fstd.eof1vector fstd.eof1vector = 1 ∧
      dot fstd.eof2vector fstd.eof2vector = 1 ∧
      dot fstd.eof1vector fstd.eof2vector = 0 ∧
      fstd.eof1vector.length = fstd.eof2vector.length) ∧
    rerunDiscontinuity (rotate_eofs (List.replicate 365 fstd)) < 1e-6 :=
  ⟨⟨by norm_num, by norm_num [fstd], by norm_num [fstd], by norm_num [fstd],
    by norm_num [fstd]⟩,
   closure_amended 365 fstd (by norm_num) (by norm_num [fstd])
     (by norm_num [fstd]) (by norm_num [fstd]) (by norm_num [fstd])⟩

/-! ## Claim C1: the concrete counterexample series

A 365-day series on a 2-point grid: day 1 carries the standard
orthonormal basis, day 2 the skewed pair `([1,1], [0,1])`, day 3 the
pair `([1,-1], [1,0])`, and days 4-365 the standard basis again.  The
estimator's propagation sends day 1's `eof1` through
`P₃ P₂ e₁ = e₁`, so the measured discontinuity — and hence the
correction angle — is exactly zero, while the seam left in the rotated
output is large. -/

/-- Day 2 of the counterexample: non-orthogonal pair. -/
def f2c : EOFData := ⟨[], [], [1, 1], [0, 1], [], [], 0⟩

/-- Day 3 of the counterexample. -/
def f3c : EOFData := ⟨[], [], [1, -1], [1, 0], [], [], 0⟩

/-- Day 2 of the rotated output of the counterexample. -/
def g2c : EOFData := ⟨[], [], [1, 1], [1, 2], [], [], 0⟩

/-- The counterexample input series. -/
def cex : List EOFData := fstd :: f2c :: f3c :: List.replicate 362 fstd

/-- The rotated output of the counterexample series. -/
def scex : List EOFData := fstd :: g2c :: List.replicate 363 fstd

lemma projStd (a b c d : ℝ) :
    projPair [1, 0] [0, 1] ([a, b], [c, d]) = ([a, b], [c, d]) := by
  simp [projPair]

lemma projF2 : projPair [1, 1] [0, 1] ([1, 0], [0, 1]) = ([1, 1], [1, 2]) := by
  norm_num [projPair]

lemma projF3 : projPair [1, -1] [1, 0] ([1, 1], [1, 2]) = ([1, 0], [0, 1]) := by
  norm_num [projPair]

lemma projG2 : projPair [1, 1] [1, 2] ([1, 0], [0, 1]) = ([2, 3], [3, 5]) := by
  norm_num [projPair]

lemma cex_length : cex.length = 365 := by
  unfold cex
  rw [List.length_cons, List.length_cons, List.length_cons,
    List.length_replicate]

lemma scex_length : scex.length = 365 := by
  unfold scex
  rw [List.length_cons, List.length_cons, List.length_replicate]

lemma cex_getD_std (d : ℕ) (h3 : 3 ≤ d) (h4 : d ≤ 364) :
    eofdata_for_doy cex (d + 1) = fstd := by
  obtain ⟨e, rfl⟩ := Nat.exists_eq_add_of_le h3
  unfold eofdata_for_doy cex
  rw [show 3 + e + 1 - 1 = (2 + e) + 1 by omega, List.getD_cons_succ,
    show 2 + e = (1 + e) + 1 by omega, List.getD_cons_succ,
    show 1 + e = e + 1 by omega, List.getD_cons_succ,
    getD_replicate fstd 362 e (by omega)]

lemma doy_list_length_eq (n : ℕ) : (doy_list n).length = n := by
  rw [doy_list, List.length_range']

lemma nextDoy_cex_1 : nextDoy cex 1 = f2c := by
  unfold nextDoy
  rw [doy_list_length_eq, cex_length, if_neg (by norm_num)]
  rfl

lemma nextDoy_cex_2 : nextDoy cex 2 = f3c := by
  unfold nextDoy
  rw [doy_list_length_eq, cex_length, if_neg (by norm_num)]
  rfl

lemma nextDoy_cex_std (d : ℕ) (h3 : 3 ≤ d) (h5 : d ≤ 365) :
    nextDoy cex d = fstd := by
  unfold nextDoy
  rw [doy_list_length_eq, cex_length]
  by_cases h : d + 1 > 365
  · rw [if_pos h]
    rfl
  · rw [if_neg h]
    exact cex_getD_std d h3 (by omega)

lemma cex_fold :
    (doy_list cex.length).foldl (estStep cex) ([1, 0], [0, 1]) =
      ([1, 0], [0, 1]) := by
  rw [cex_length]
  have hsplit : doy_list 365 = List.range' 1 2 ++ List.range' 3 363 := by
    rw [doy_list]
    exact (List.range'_append 1 2 363 1).symm
  rw [hsplit, List.foldl_append,
    show List.range' 1 2 = [1, 2] from rfl,
    List.foldl_cons, List.foldl_cons, List.foldl_nil]
  have h1 : estStep cex ([1, 0], [0, 1]) 1 = ([1, 1], [1, 2]) := by
    unfold estStep
    rw [nextDoy_cex_1]
    exact projF2
  have h2 : estStep cex ([1, 1], [1, 2]) 2 = ([1, 0], [0, 1]) := by
    unfold estStep
    rw [nextDoy_cex_2]
    exact projF3
  rw [h1, h2]
  apply foldl_fixed
  intro d hd
  obtain ⟨i, hi, rfl⟩ := List.mem_range'.mp hd
  unfold estStep
  rw [nextDoy_cex_std _ (by omega) (by omega)]
  exact projStd 1 0 0 1

lemma cex_delta : calculate_angle_from_discontinuity cex = 0 := by
  unfold calculate_angle_from_discontinuity
  have hfold : ((doy_list cex.length).foldl (estStep cex)
      ((eofdata_for_doy cex 1).eof1vector, (eofdata_for_doy cex 1).eof2vector))
        = (([1, 0], [0, 1]) : Vec × Vec) := cex_fold
  rw [hfold]
  rw [show angle_btwn_vectors (eofdata_for_doy cex 1).eof1vector
      ((([1, 0], [0, 1]) : Vec × Vec)).1 = 0 from
    angle_self [1, 0] (by norm_num)]
  rw [neg_zero, zero_div]

lemma cex_rotate : rotate_eofs cex = scex := by
  unfold rotate_eofs
  rw [cex_delta]
  have s1 : rotateStep (rotation_matrix 0) f2c ([1, 0], [0, 1]) =
      ([1, 1], [1, 2]) := by
    rw [rotateStep_zero]
    exact projF2
  have s2 : rotateStep (rotation_matrix 0) f3c ([1, 1], [1, 2]) =
      ([1, 0], [0, 1]) := by
    rw [rotateStep_zero]
    exact projF3
  have hrep : rotateGo (rotation_matrix 0) ([1, 0], [0, 1])
      (List.replicate 362 fstd) = List.replicate 362 fstd :=
    rotateGo_zero_replicate fstd (by norm_num [fstd]) (by norm_num [fstd])
      (by norm_num [fstd]) (by norm_num [fstd]) 362
  show eofdata_for_doy cex 1 ::
    rotateGo (rotation_matrix 0)
      ((eofdata_for_doy cex 1).eof1vector, (eofdata_for_doy cex 1).eof2vector)
      cex.tail = scex
  show fstd :: rotateGo (rotation_matrix 0) ([1, 0], [0, 1])
    (f2c :: f3c :: List.replicate 362 fstd) = scex
  have e1 : rotateGo (rotation_matrix 0) ([1, 0], [0, 1])
      (f2c :: f3c :: List.replicate 362 fstd) =
      rebuiltFrame f2c (rotateStep (rotation_matrix 0) f2c ([1, 0], [0, 1])) ::
        rotateGo (rotation_matrix 0)
          (rotateStep (rotation_matrix 0) f2c ([1, 0], [0, 1]))
          (f3c :: List.replicate 362 fstd) := rfl
  rw [e1, s1]
  have e2 : rotateGo (rotation_matrix 0) ([1, 1], [1, 2])
      (f3c :: List.replicate 362 fstd) =
      rebuiltFrame f3c (rotateStep (rotation_matrix 0) f3c ([1, 1], [1, 2])) ::
        rotateGo (rotation_matrix 0)
          (rotateStep (rotation_matrix 0) f3c ([1, 1], [1, 2]))
          (List.replicate 362 fstd) := rfl
  rw [e2, s2, hrep]
  rfl

lemma nextDoy_scex_std (d : ℕ) (h2 : 2 ≤ d) (h5 : d ≤ 365) :
    nextDoy scex d = fstd := by
  unfold nextDoy
  rw [doy_list_length_eq, scex_length]
  by_cases h : d + 1 > 365
  · rw [if_pos h]
    rfl
  · rw [if_neg h]
    obtain ⟨e, rfl⟩ := Nat.exists_eq_add_of_le h2
    unfold eofdata_for_doy scex
    rw [show 2 + e + 1 - 1 = (1 + e) + 1 by omega, List.getD_cons_succ,
      show 1 + e = e + 1 by omega, List.getD_cons_succ,
      getD_replicate fstd 363 e (by omega)]

lemma scex_fold :
    (doy_list scex.length).foldl (estStep scex) ([1, 0], [0, 1]) =
      ([2, 3], [3, 5]) := by
  rw [scex_length]
  have hsplit : doy_list 365 = List.range' 1 1 ++ List.range' 2 364 := by
    rw [doy_list]
    exact (List.range'_append 1 1 364 1).symm
  rw [hsplit, List.foldl_append,
    show List.range' 1 1 = [1] from rfl, List.foldl_cons, List.foldl_nil]
  have h1 : estStep scex ([1, 0], [0, 1]) 1 = ([2, 3], [3, 5]) := by
    unfold estStep
    have hn : nextDoy scex 1 = g2c := by
      unfold nextDoy
      rw [doy_list_length_eq, scex_length, if_neg (by norm_num)]
      rfl
    rw [hn]
    exact projG2
  rw [h1]
  apply foldl_fixed
  intro d hd
  obtain ⟨i, hi, rfl⟩ := List.mem_range'.mp hd
  unfold estStep
  rw [nextDoy_scex_std _ (by omega) (by omega)]
  exact projStd 2 3 3 5

lemma scex_rerun :
    rerunDiscontinuity scex = angle_btwn_vectors [1, 0] [2, 3] := by
  unfold rerunDiscontinuity
  have hfold : ((doy_list scex.length).foldl (estStep scex)
      ((eofdata_for_doy scex 1).eof1vector,
        (eofdata_for_doy scex 1).eof2vector))
        = (([2, 3], [3, 5]) : Vec × Vec) := scex_fold
  rw [hfold]
  rfl

lemma angle_e1_23 : 1e-6 ≤ angle_btwn_vectors [1, 0] [2, 3] := by
  have hdot : dot ([1, 0] : Vec) [2, 3] = 2 := by norm_num
  have hn1 : norm ([1, 0] : Vec) = 1 := by
    unfold norm
    rw [show dot ([1, 0] : Vec) [1, 0] = 1 by norm_num]
    exact Real.sqrt_one
  have hn2 : norm ([2, 3] : Vec) = Real.sqrt 13 := by
    unfold norm
    rw [show dot ([2, 3] : Vec) [2, 3] = 13 by norm_num]
  have h13 : (0 : ℝ) < Real.sqrt 13 := Real.sqrt_pos.mpr (by norm_num)
  have hxpos : (0 : ℝ) ≤ 2 / (1 * Real.sqrt 13) := by positivity
  have hxlt : 2 / (1 * Real.sqrt 13) < Real.sqrt 2 / 2 := by
    rw [one_mul, div_lt_div_iff₀ h13 (by norm_num)]
    rw [← Real.sqrt_mul (by norm_num) 13, show (2 : ℝ) * 13 = 26 by norm_num,
      show (2 : ℝ) * 2 = 4 by norm_num]
    exact (Real.lt_sqrt (by norm_num)).mpr (by norm_num)
  have hxle1 : 2 / (1 * Real.sqrt 13) ≤ 1 := by
    have h22 : Real.sqrt 2 / 2 < 1 := by
      rw [div_lt_one (by norm_num)]
      exact (Real.sqrt_lt' (by norm_num)).mpr (by norm_num)
    linarith
  unfold angle_btwn_vectors npClip
  rw [hdot, hn1, hn2, max_eq_left (by linarith), min_eq_left hxle1]
  by_contra hcon
  push_neg at hcon
  have hc1 : Real.cos 1e-6 <
      Real.cos (Real.arccos (2 / (1 * Real.sqrt 13))) :=
    Real.cos_lt_cos_of_nonneg_of_le_pi (Real.arccos_nonneg _)
      (by linarith [Real.pi_gt_three]) hcon
  rw [Real.cos_arccos (by linarith) hxle1] at hc1
  have hc2 : Real.cos (Real.pi / 4) < Real.cos 1e-6 :=
    Real.cos_lt_cos_of_nonneg_of_le_pi (by norm_num)
      (by linarith [Real.pi_pos]) (by linarith [Real.pi_gt_three])
  rw [Real.cos_pi_div_four] at hc2
  linarith

lemma cex_valid : ValidSeries cex := by
  refine ⟨Or.inl cex_length, ⟨2, ?_⟩, ?_⟩
  · intro f hf
    simp only [cex, List.mem_cons, List.mem_replicate] at hf
    rcases hf with rfl | rfl | rfl | ⟨-, rfl⟩ <;> exact ⟨rfl, rfl⟩
  · intro f hf
    simp only [cex, List.mem_cons, List.mem_replicate] at hf
    rcases hf with rfl | rfl | rfl | ⟨-, rfl⟩ <;>
      exact ⟨by norm_num [fstd, f2c, f3c], by norm_num [fstd, f2c, f3c]⟩

/-- Counterexample to C1: for the valid 365-day sign-aligned series
`cex`, the estimator measures a zero discontinuity (so the rotator
applies a zero correction), yet re-running the section 4.2 projection
pass on the rotated output leaves a seam discontinuity of
`arccos(2/√13) ≈ 0.983` radians — not below `1e-6`.  Closure therefore
fails for some valid input series. -/
theorem closure_counterexample :
    ¬ (∀ s : List EOFData, ValidSeries s →
        rerunDiscontinuity (rotate_eofs s) < 1e-6) := by
  intro h
  have hc := h cex cex_valid
  rw [cex_rotate, scex_rerun] at hc
  exact absurd hc (not_lt.mpr angle_e1_23)

end EofRot
